import Mathlib

/-!
Shallow embedding of `dbpool.go` (package `dbpool`): a concurrency-safe,
time-expiring cache mapping string keys to database handles.

Modelling choices:
* Timestamps (`time.Time` / `UnixNano`) and durations (`time.Duration`) are
  `Int` nanoseconds; `int64` overflow never matters for the properties below.
* The opaque `*sqlx.DB` handle is a `Nat` identifier; its only capability used
  by the cache is `Close`, whose success or failure is an oracle
  `closeFails : Nat → Bool`.
* The Go map `pool map[string]PoolItem` is an association list with
  replace-on-insert; every public operation additionally returns the list of
  observable events it performs, in program order: lock transitions on the
  `sync.RWMutex`, map writes and deletes, `Close` calls, and warning logs.
* Each operation takes the current wall clock `now` explicitly; the several
  `time.Now()` calls inside one operation are identified (they differ by
  nanoseconds only and no claim depends on the difference).
-/

namespace DbPool

/-- Observable event of one cache operation, in program order. -/
inductive Ev where
  | rlockAcq
  | rlockRel
  | lockAcq
  | lockRel
  | mapWrite (key : String)
  | mapDel (key : String)
  | closeDb (db : Nat)
  | logWarn
  deriving DecidableEq, Repr

/-- Entry of the pool, mirroring Go `PoolItem`: `Expiration` is an absolute
UnixNano timestamp with `0` as the never-expire sentinel, `Duration` the
stored ttl, `Created` the last (re)insertion time, `Db` the handle id. -/
structure PoolItem where
  Expiration : Int
  Duration : Int
  Created : Int
  Db : Nat
  deriving DecidableEq, Repr

/-- Mirror of Go `SafeDbMapCache` (minus the mutex, which is represented by
the lock events in traces). -/
structure SafeDbMapCache where
  pool : List (String × PoolItem)
  defaultExpiration : Int
  cleanupInterval : Int
  deriving DecidableEq, Repr

/-- Go map lookup `item, found := c.pool[key]`. -/
def lookupKey : List (String × PoolItem) → String → Option PoolItem
  | [], _ => none
  | p :: rest, key => if p.1 = key then some p.2 else lookupKey rest key

/-- Go map removal `delete(c.pool, key)`. -/
def eraseKey : List (String × PoolItem) → String → List (String × PoolItem)
  | [], _ => []
  | p :: rest, key => if p.1 = key then eraseKey rest key else p :: eraseKey rest key

/-- Go map assignment `c.pool[key] = v` (replaces any previous binding). -/
def insertKey (l : List (String × PoolItem)) (key : String) (v : PoolItem) :
    List (String × PoolItem) :=
  (key, v) :: eraseKey l key

/-- Go `New`: an initialized, empty cache (the background GC task itself is
not part of the state; one of its ticks is modelled by `GCTick`). -/
def New (defaultExpiration cleanupInterval : Int) : SafeDbMapCache :=
  ⟨[], defaultExpiration, cleanupInterval⟩

/-- Go `Set`: resolve the effective duration (`defaultExpiration` when the
argument is exactly 0), compute the expiration (`0` sentinel unless the
effective duration is positive), and store the entry under the write lock. -/
def Set (c : SafeDbMapCache) (key : String) (value : Nat) (duration now : Int) :
    SafeDbMapCache × List Ev :=
  let duration := if duration = 0 then c.defaultExpiration else duration
  let expiration : Int := if duration > 0 then now + duration else 0
  (⟨insertKey c.pool key ⟨expiration, duration, now, value⟩,
    c.defaultExpiration, c.cleanupInterval⟩,
   [Ev.lockAcq, Ev.mapWrite key, Ev.lockRel])

/-- Go `Get`: under the READ lock (`RLock`, faithfully recorded in the trace),
look up the key; miss on absence, miss on set-and-passed expiration, and
otherwise write back a refreshed entry and return the handle. -/
def Get (c : SafeDbMapCache) (key : String) (now : Int) :
    Option Nat × SafeDbMapCache × List Ev :=
  match lookupKey c.pool key with
  | none => (none, c, [Ev.rlockAcq, Ev.rlockRel])
  | some item =>
    if item.Expiration > 0 ∧ now > item.Expiration then
      (none, c, [Ev.rlockAcq, Ev.rlockRel])
    else
      let newExpiration : Int := if item.Duration > 0 then now + item.Duration else 0
      (some item.Db,
       ⟨insertKey c.pool key ⟨newExpiration, item.Duration, now, item.Db⟩,
        c.defaultExpiration, c.cleanupInterval⟩,
       [Ev.rlockAcq, Ev.mapWrite key, Ev.rlockRel])

/-- Go `Delete`: error `"key not found"` on absence; otherwise close the
handle (logging a warning when closing fails), then remove the mapping and
return no error. -/
def Delete (c : SafeDbMapCache) (key : String) (closeFails : Nat → Bool) :
    Option String × SafeDbMapCache × List Ev :=
  match lookupKey c.pool key with
  | none => (some "key not found", c, [Ev.lockAcq, Ev.lockRel])
  | some connector =>
    (none,
     ⟨eraseKey c.pool key, c.defaultExpiration, c.cleanupInterval⟩,
     [Ev.lockAcq, Ev.closeDb connector.Db] ++
       (if closeFails connector.Db then [Ev.logWarn] else []) ++
       [Ev.mapDel key, Ev.lockRel])

/-- Go `GetItems`: snapshot of all stored keys under the read lock. -/
def GetItems (c : SafeDbMapCache) : List String × SafeDbMapCache × List Ev :=
  (c.pool.map Prod.fst, c, [Ev.rlockAcq, Ev.rlockRel])

/-- Go `ExpiredKeys`: keys whose expiration is set and has passed. -/
def ExpiredKeys (c : SafeDbMapCache) (now : Int) : List String × SafeDbMapCache × List Ev :=
  ((c.pool.filter (fun p => decide (now > p.2.Expiration ∧ p.2.Expiration > 0))).map Prod.fst,
   c, [Ev.rlockAcq, Ev.rlockRel])

/-- Loop body shared by Go `clearItems` and `ClearAll`: for each key, look it
up, close its handle when present (logging a close failure), and delete the
mapping. -/
def clearLoop (closeFails : Nat → Bool) :
    List (String × PoolItem) → List String → List (String × PoolItem) × List Ev
  | pool, [] => (pool, [])
  | pool, k :: ks =>
    let evs :=
      match lookupKey pool k with
      | some connector =>
        Ev.closeDb connector.Db :: (if closeFails connector.Db then [Ev.logWarn] else [])
      | none => []
    let rest := clearLoop closeFails (eraseKey pool k) ks
    (rest.1, evs ++ (Ev.mapDel k :: rest.2))

/-- Go `clearItems`: evict the given keys under the write lock. -/
def clearItems (c : SafeDbMapCache) (keys : List String) (closeFails : Nat → Bool) :
    SafeDbMapCache × List Ev :=
  let r := clearLoop closeFails c.pool keys
  (⟨r.1, c.defaultExpiration, c.cleanupInterval⟩, Ev.lockAcq :: (r.2 ++ [Ev.lockRel]))

/-- Go `ClearAll`: same loop, iterating over every stored key. -/
def ClearAll (c : SafeDbMapCache) (closeFails : Nat → Bool) : SafeDbMapCache × List Ev :=
  let r := clearLoop closeFails c.pool (c.pool.map Prod.fst)
  (⟨r.1, c.defaultExpiration, c.cleanupInterval⟩, Ev.lockAcq :: (r.2 ++ [Ev.lockRel]))

/-- One iteration of Go `GC` after the tick fires (the `c.pool == nil`
teardown check can never trigger here, the pool is always a list): scan for
expired keys and, when some exist, evict them with `clearItems`. -/
def GCTick (c : SafeDbMapCache) (closeFails : Nat → Bool) (now : Int) :
    SafeDbMapCache × List Ev :=
  let scan := ExpiredKeys c now
  if scan.1.length ≠ 0 then
    let r := clearItems c scan.1 closeFails
    (r.1, scan.2.2 ++ r.2)
  else
    (c, scan.2.2)

/-- Handles passed to `Close`, in order, extracted from a trace. -/
def closedDbs (evs : List Ev) : List Nat :=
  evs.filterMap (fun e => match e with | Ev.closeDb d => some d | _ => none)

/-- Number of `Close` calls a trace performs on handle `db`. -/
def closeCount (db : Nat) (evs : List Ev) : Nat := (closedDbs evs).count db

/-- Map mutations (writes and deletes) of a trace. -/
def mapMutations (evs : List Ev) : List Ev :=
  evs.filter (fun e => match e with
    | Ev.mapWrite _ => true
    | Ev.mapDel _ => true
    | _ => false)

/-- Scan of a trace checking that every map mutation happens while the
exclusive (write) lock is held; the `Bool` is the current held state. -/
def writesLockedAux : Bool → List Ev → Bool
  | _, [] => true
  | _, Ev.lockAcq :: rest => writesLockedAux true rest
  | _, Ev.lockRel :: rest => writesLockedAux false rest
  | held, Ev.mapWrite _ :: rest => held && writesLockedAux held rest
  | held, Ev.mapDel _ :: rest => held && writesLockedAux held rest
  | held, _ :: rest => writesLockedAux held rest

/-- Every map mutation of the trace occurs under the exclusive lock. -/
def writesUnderWriteLock (evs : List Ev) : Bool := writesLockedAux false evs

/-- Iterated `Get` on one key at the given sequence of times; returns the
individual results and the final cache state. -/
def getSeq : SafeDbMapCache → String → List Int → List (Option Nat) × SafeDbMapCache
  | c, _, [] => ([], c)
  | c, key, t :: ts =>
    let r := Get c key t
    let rest := getSeq r.2.1 key ts
    (r.1 :: rest.1, rest.2)

/-- Access times each falling inside the sliding window: the first is at most
`e`, and each subsequent one at most `d` after its predecessor. -/
def withinChain : Int → Int → List Int → Bool
  | _, _, [] => true
  | e, d, t :: ts => decide (t ≤ e) && withinChain (t + d) d ts

/-- The pool binds each key at most once (true of every reachable state,
since Go maps have unique keys). -/
def NodupKeys (c : SafeDbMapCache) : Prop := (c.pool.map Prod.fst).Nodup

/-- Effective duration computed by `Set`: the default when the argument is
exactly 0 (source lines 53-55). -/
def effDur (c : SafeDbMapCache) (duration : Int) : Int :=
  if duration = 0 then c.defaultExpiration else duration

/-- Expiration stored by `Set`: `now` plus the effective duration when that
is positive, else the never-expire sentinel 0 (source lines 51, 57-59). -/
def effExp (c : SafeDbMapCache) (duration now : Int) : Int :=
  if effDur c duration > 0 then now + effDur c duration else 0

theorem Set_eq (c : SafeDbMapCache) (key : String) (v : Nat) (d now : Int) :
    Set c key v d now =
      (⟨insertKey c.pool key ⟨effExp c d now, effDur c d, now, v⟩,
        c.defaultExpiration, c.cleanupInterval⟩,
       [Ev.lockAcq, Ev.mapWrite key, Ev.lockRel]) := rfl

theorem lookupKey_eraseKey (k k' : String) :
    ∀ l : List (String × PoolItem),
      lookupKey (eraseKey l k) k' = if k' = k then none else lookupKey l k' := by
  intro l
  induction l with
  | nil => simp [eraseKey, lookupKey]
  | cons p rest ih =>
    simp only [eraseKey]
    by_cases h : p.1 = k
    · rw [if_pos h, ih]
      by_cases h2 : k' = k
      · simp [h2]
      · have hp : ¬ p.1 = k' := fun hcon => h2 (hcon ▸ h)
        simp [lookupKey, h2, hp]
    · rw [if_neg h]
      simp only [lookupKey]
      by_cases h2 : p.1 = k'
      · have hne : ¬ k' = k := fun hcon => h (h2.trans hcon)
        simp [h2, hne]
      · simp [h2, ih]

theorem lookupKey_insertKey (l : List (String × PoolItem)) (k : String) (v : PoolItem)
    (k' : String) :
    lookupKey (insertKey l k v) k' = if k' = k then some v else lookupKey l k' := by
  by_cases h : k' = k
  · simp [insertKey, lookupKey, h]
  · have : k ≠ k' := fun hcon => h hcon.symm
    simp [insertKey, lookupKey, this, lookupKey_eraseKey, h]

theorem mem_of_lookupKey (k : String) (v : PoolItem) :
    ∀ l : List (String × PoolItem), lookupKey l k = some v → k ∈ l.map Prod.fst := by
  intro l
  induction l with
  | nil => intro h; simp [lookupKey] at h
  | cons p rest ih =>
    intro h
    rw [List.map_cons]
    by_cases hp : p.1 = k
    · rw [hp]
      exact List.mem_cons_self _ _
    · have h2 : lookupKey rest k = some v := by
        simpa [lookupKey, hp] using h
      exact List.mem_cons_of_mem _ (ih h2)

theorem lookupKey_eq_none_of_not_mem (k : String) :
    ∀ l : List (String × PoolItem), k ∉ l.map Prod.fst → lookupKey l k = none := by
  intro l
  induction l with
  | nil => intro _; simp [lookupKey]
  | cons p rest ih =>
    intro hmem
    rw [List.map_cons] at hmem
    have h1 : ¬ p.1 = k := fun hcon => hmem (by rw [hcon]; exact List.mem_cons_self _ _)
    have h2 : k ∉ rest.map Prod.fst := fun hcon => hmem (List.mem_cons_of_mem _ hcon)
    simp [lookupKey, h1, ih h2]

theorem mem_eraseKey (k : String) (p : String × PoolItem) :
    ∀ l : List (String × PoolItem), p ∈ eraseKey l k → p ∈ l ∧ p.1 ≠ k := by
  intro l
  induction l with
  | nil => simp [eraseKey]
  | cons q rest ih =>
    by_cases h : q.1 = k
    · simp [eraseKey, h]
      intro hp
      exact ⟨Or.inr (ih hp).1, (ih hp).2⟩
    · simp [eraseKey, h]
      intro hp
      rcases hp with hp | hp
      · exact ⟨Or.inl hp, by rw [hp]; exact h⟩
      · exact ⟨Or.inr (ih hp).1, (ih hp).2⟩

theorem clearLoop_lookup_not_mem (cf : Nat → Bool) (k : String) :
    ∀ (keys : List String) (pool : List (String × PoolItem)), k ∉ keys →
      lookupKey (clearLoop cf pool keys).1 k = lookupKey pool k := by
  intro keys
  induction keys with
  | nil => intro pool _; simp [clearLoop]
  | cons k1 ks ih =>
    intro pool hk
    simp at hk
    simp [clearLoop]
    rw [ih (eraseKey pool k1) hk.2, lookupKey_eraseKey, if_neg hk.1]

theorem clearLoop_lookup_mem (cf : Nat → Bool) (k : String) :
    ∀ (keys : List String) (pool : List (String × PoolItem)), k ∈ keys →
      lookupKey (clearLoop cf pool keys).1 k = none := by
  intro keys
  induction keys with
  | nil => simp
  | cons k1 ks ih =>
    intro pool hk
    by_cases hmem : k ∈ ks
    · simp [clearLoop, ih (eraseKey pool k1) hmem]
    · have hk1 : k = k1 := by
        rcases List.mem_cons.mp hk with h | h
        · exact h
        · exact absurd h hmem
      simp [clearLoop]
      rw [clearLoop_lookup_not_mem cf k ks (eraseKey pool k1) hmem,
        lookupKey_eraseKey, if_pos hk1]

theorem filterMap_congr_mem {α β : Type} (f g : α → Option β) :
    ∀ l : List α, (∀ a ∈ l, f a = g a) → l.filterMap f = l.filterMap g := by
  intro l
  induction l with
  | nil => simp
  | cons a rest ih =>
    intro h
    simp [List.filterMap_cons, h a (by simp), ih fun a ha => h a (by simp [ha])]

theorem closedDbs_append (e1 e2 : List Ev) :
    closedDbs (e1 ++ e2) = closedDbs e1 ++ closedDbs e2 := by
  simp [closedDbs]

theorem closedDbs_clearLoop (cf : Nat → Bool) :
    ∀ (keys : List String) (pool : List (String × PoolItem)), keys.Nodup →
      closedDbs (clearLoop cf pool keys).2 =
        keys.filterMap (fun k => (lookupKey pool k).map PoolItem.Db) := by
  intro keys
  induction keys with
  | nil => simp [clearLoop, closedDbs]
  | cons k1 ks ih =>
    intro pool hnd
    have hk1 : k1 ∉ ks := (List.nodup_cons.mp hnd).1
    have hks : ks.Nodup := (List.nodup_cons.mp hnd).2
    have htail : ks.filterMap (fun k => (lookupKey (eraseKey pool k1) k).map PoolItem.Db) =
        ks.filterMap (fun k => (lookupKey pool k).map PoolItem.Db) := by
      apply filterMap_congr_mem
      intro k hk
      rw [lookupKey_eraseKey, if_neg]
      intro hcon
      exact hk1 (hcon ▸ hk)
    cases hl : lookupKey pool k1 with
    | none =>
      have h2 : closedDbs (clearLoop cf pool (k1 :: ks)).2 =
          closedDbs (clearLoop cf (eraseKey pool k1) ks).2 := by
        simp [clearLoop, hl, closedDbs]
      rw [h2, ih _ hks, htail, List.filterMap_cons]
      simp [hl]
    | some connector =>
      have h2 : closedDbs (clearLoop cf pool (k1 :: ks)).2 =
          connector.Db :: closedDbs (clearLoop cf (eraseKey pool k1) ks).2 := by
        by_cases hf : cf connector.Db <;> simp [clearLoop, hl, hf, closedDbs]
      rw [h2, ih _ hks, htail, List.filterMap_cons]
      simp [hl]

theorem clearLoop_pool_nil (cf : Nat → Bool) :
    ∀ (keys : List String) (pool : List (String × PoolItem)),
      (∀ p ∈ pool, p.1 ∈ keys) → (clearLoop cf pool keys).1 = [] := by
  intro keys
  induction keys with
  | nil =>
    intro pool h
    cases pool with
    | nil => simp [clearLoop]
    | cons p rest => exact absurd (h p (by simp)) (by simp)
  | cons k1 ks ih =>
    intro pool h
    simp [clearLoop]
    apply ih
    intro p hp
    rcases mem_eraseKey k1 p pool hp with ⟨hmem, hne⟩
    rcases List.mem_cons.mp (h p hmem) with heq | hks
    · exact absurd heq hne
    · exact hks

theorem map_fst_filterMap_lookup :
    ∀ pool : List (String × PoolItem), (pool.map Prod.fst).Nodup →
      (pool.map Prod.fst).filterMap (fun k => (lookupKey pool k).map PoolItem.Db) =
        pool.map (fun p => p.2.Db) := by
  intro pool
  induction pool with
  | nil => simp
  | cons p rest ih =>
    intro hnd
    rw [List.map_cons] at hnd
    obtain ⟨h1, h2⟩ := List.nodup_cons.mp hnd
    have htail : (rest.map Prod.fst).filterMap
        (fun k => (lookupKey (p :: rest) k).map PoolItem.Db) =
        (rest.map Prod.fst).filterMap (fun k => (lookupKey rest k).map PoolItem.Db) := by
      apply filterMap_congr_mem
      intro k hk
      have hne : ¬ p.1 = k := fun hcon => h1 (by rw [hcon]; exact hk)
      simp [lookupKey, hne]
    have hhead : Option.map PoolItem.Db (lookupKey (p :: rest) p.1) = some p.2.Db := by
      simp [lookupKey]
    rw [List.map_cons, List.filterMap_cons, hhead]
    simp only [htail, ih h2, List.map_cons]

theorem expiredKeys_sub_pool (c : SafeDbMapCache) (now : Int) :
    (ExpiredKeys c now).1.Sublist (c.pool.map Prod.fst) := by
  simpa [ExpiredKeys] using List.Sublist.map Prod.fst (List.filter_sublist c.pool)

theorem expiredKeys_nodup (c : SafeDbMapCache) (now : Int) (h : NodupKeys c) :
    (ExpiredKeys c now).1.Nodup :=
  h.sublist (expiredKeys_sub_pool c now)

theorem getSeq_all_found (key : String) (v : Nat) (d : Int) (hd : 0 < d) :
    ∀ (ts : List Int) (c : SafeDbMapCache) (e cr : Int),
      lookupKey c.pool key = some ⟨e, d, cr, v⟩ →
      withinChain e d ts = true →
      (getSeq c key ts).1 = ts.map (fun _ => some v) := by
  intro ts
  induction ts with
  | nil => simp [getSeq]
  | cons t ts ih =>
    intro c e cr hlook hchain
    simp [withinChain] at hchain
    have hnotexp : ¬ (e > 0 ∧ t > e) := by
      intro hcon
      exact absurd hchain.1 (not_le.mpr hcon.2)
    have hget : Get c key t =
        (some v,
         ⟨insertKey c.pool key ⟨t + d, d, t, v⟩, c.defaultExpiration, c.cleanupInterval⟩,
         [Ev.rlockAcq, Ev.mapWrite key, Ev.rlockRel]) := by
      simp [Get, hlook, hnotexp, hd]
    have hlook2 : lookupKey (insertKey c.pool key ⟨t + d, d, t, v⟩) key =
        some ⟨t + d, d, t, v⟩ := by
      simp [lookupKey_insertKey]
    simp [getSeq, hget]
    simpa using ih ⟨insertKey c.pool key ⟨t + d, d, t, v⟩, c.defaultExpiration,
      c.cleanupInterval⟩ (t + d) t hlook2 hchain.2

theorem lookupKey_isSome_of_mem (k : String) :
    ∀ l : List (String × PoolItem), k ∈ l.map Prod.fst → (lookupKey l k).isSome := by
  intro l
  induction l with
  | nil => simp
  | cons p rest ih =>
    intro hmem
    by_cases h : p.1 = k
    · simp [lookupKey, h]
    · rw [List.map_cons] at hmem
      rcases List.mem_cons.mp hmem with heq | hrest
      · exact absurd heq.symm h
      · simp [lookupKey, h, ih hrest]

theorem getSeq_never_expire (key : String) (v : Nat) :
    ∀ (ts : List Int) (c : SafeDbMapCache) (cr : Int),
      lookupKey c.pool key = some ⟨0, 0, cr, v⟩ →
      (getSeq c key ts).1 = ts.map (fun _ => some v) := by
  intro ts
  induction ts with
  | nil => simp [getSeq]
  | cons t ts ih =>
    intro c cr hlook
    have hget : Get c key t =
        (some v,
         ⟨insertKey c.pool key ⟨0, 0, t, v⟩, c.defaultExpiration, c.cleanupInterval⟩,
         [Ev.rlockAcq, Ev.mapWrite key, Ev.rlockRel]) := by
      simp [Get, hlook]
    have hlook2 : lookupKey (insertKey c.pool key ⟨0, 0, t, v⟩) key =
        some ⟨0, 0, t, v⟩ := by
      simp [lookupKey_insertKey]
    simp [getSeq, hget]
    simpa using ih ⟨insertKey c.pool key ⟨0, 0, t, v⟩, c.defaultExpiration,
      c.cleanupInterval⟩ t hlook2

/-- Claim C7: `Set` always succeeds (it has no error path and closes no
handle) and stores for the key an entry whose effective ttl is
`defaultExpiration` when the argument is exactly 0 and the argument itself
otherwise, whose expiration is the never-expire sentinel 0 when the
effective ttl is not positive and `now` plus the effective ttl otherwise,
and whose creation time is `now`; any prior entry for the key is overwritten
and every other key is untouched. -/
theorem c7_set_semantics (c : SafeDbMapCache) (key : String) (value : Nat)
    (duration now : Int) (k' : String) (hk' : k' ≠ key) :
    lookupKey (Set c key value duration now).1.pool key =
      some ⟨effExp c duration now, effDur c duration, now, value⟩ ∧
    lookupKey (Set c key value duration now).1.pool k' = lookupKey c.pool k' ∧
    closedDbs (Set c key value duration now).2 = [] := by
  refine ⟨?_, ?_, rfl⟩
  · rw [Set_eq]
    simp [lookupKey_insertKey]
  · rw [Set_eq]
    simp [lookupKey_insertKey, hk']

/-- Witness for C7 at a cache with default ttl 7: `Set` with argument 0 at
time 5 stores expiration 12 and ttl 7. -/
theorem c7_set_semantics_witness :
    lookupKey (Set (New 7 9) "a" 1 0 5).1.pool "a" = some ⟨12, 7, 5, 1⟩ ∧
    lookupKey (Set (New 7 9) "a" 1 0 5).1.pool "b" = lookupKey (New 7 9).pool "b" ∧
    closedDbs (Set (New 7 9) "a" 1 0 5).2 = [] :=
  c7_set_semantics (New 7 9) "a" 1 0 5 "b" (by decide)

/-- Claim C2: an entry whose expiration is set (positive, not the sentinel)
and has passed is reported not-found by `Get`, which returns with the cache
completely unchanged (lazy expiration, no deletion), so `GetItems` still
lists the key afterwards. -/
theorem c2_lazy_expiration (c : SafeDbMapCache) (key : String) (item : PoolItem)
    (now : Int) (hfound : lookupKey c.pool key = some item)
    (hset : item.Expiration > 0) (hpast : now > item.Expiration) :
    Get c key now = (none, c, [Ev.rlockAcq, Ev.rlockRel]) ∧
    key ∈ (GetItems c).1 := by
  constructor
  · simp [Get, hfound, hset, hpast]
  · exact mem_of_lookupKey key item c.pool hfound

/-- Witness for C2: entry for key a with expiration 3 queried at time 10. -/
theorem c2_lazy_expiration_witness :
    Get ⟨[("a", ⟨3, 1, 0, 5⟩)], 0, 0⟩ "a" 10 =
      (none, ⟨[("a", ⟨3, 1, 0, 5⟩)], 0, 0⟩, [Ev.rlockAcq, Ev.rlockRel]) ∧
    "a" ∈ (GetItems ⟨[("a", ⟨3, 1, 0, 5⟩)], 0, 0⟩).1 :=
  c2_lazy_expiration ⟨[("a", ⟨3, 1, 0, 5⟩)], 0, 0⟩ "a" ⟨3, 1, 0, 5⟩ 10
    (by decide) (by decide) (by decide)

/-- Claim C4: `Delete` returns the not-found error exactly when the key is
absent; on a present key it closes the stored handle exactly once, removes
the mapping whether or not the close fails (a failure only adds a warning
log), and returns no error. -/
theorem c4_delete_semantics (c : SafeDbMapCache) (key : String) (cf : Nat → Bool) :
    ((Delete c key cf).1 = some "key not found" ↔ lookupKey c.pool key = none) ∧
    (∀ item, lookupKey c.pool key = some item →
      (Delete c key cf).1 = none ∧
      (Delete c key cf).2.1 =
        ⟨eraseKey c.pool key, c.defaultExpiration, c.cleanupInterval⟩ ∧
      closedDbs (Delete c key cf).2.2 = [item.Db]) := by
  cases hl : lookupKey c.pool key with
  | none =>
    constructor
    · simp [Delete, hl]
    · intro item hcon
      simp at hcon
  | some connector =>
    constructor
    · by_cases hf : cf connector.Db <;> simp [Delete, hl, hf]
    · intro item hitem
      obtain rfl := Option.some.inj hitem
      refine ⟨?_, ?_, ?_⟩
      · simp [Delete, hl]
      · simp [Delete, hl]
      · by_cases hf : cf connector.Db <;> simp [Delete, hl, hf, closedDbs]

/-- Witness for C4: deleting present key a with a failing close still
removes it and returns no error, and deleting absent b errs. -/
theorem c4_delete_semantics_witness :
    ((Delete (⟨[("a", ⟨10, 5, 0, 7⟩)], 0, 0⟩ : SafeDbMapCache) "a"
        (fun _ => true)).1 = none ∧
      (Delete (⟨[("a", ⟨10, 5, 0, 7⟩)], 0, 0⟩ : SafeDbMapCache) "a"
        (fun _ => true)).2.1 =
        ⟨eraseKey [("a", ⟨10, 5, 0, 7⟩)] "a", 0, 0⟩ ∧
      closedDbs (Delete (⟨[("a", ⟨10, 5, 0, 7⟩)], 0, 0⟩ : SafeDbMapCache) "a"
        (fun _ => true)).2.2 = [7]) ∧
    (Delete (⟨[("a", ⟨10, 5, 0, 7⟩)], 0, 0⟩ : SafeDbMapCache) "b"
      (fun _ => true)).1 = some "key not found" :=
  ⟨(c4_delete_semantics ⟨[("a", ⟨10, 5, 0, 7⟩)], 0, 0⟩ "a" (fun _ => true)).2
      ⟨10, 5, 0, 7⟩ (by decide),
   (c4_delete_semantics ⟨[("a", ⟨10, 5, 0, 7⟩)], 0, 0⟩ "b" (fun _ => true)).1.mpr
      (by decide)⟩

/-- Claim C9 is refuted by the code (code bug): on a cache hit `Get` performs
its refresh write to the map while holding only the shared read lock
(`RLock`); its trace contains a map write but never acquires the exclusive
lock, unlike `Set`, whose write is exclusively locked. Two concurrent `Get`
hits may therefore write the Go map concurrently (a data race). -/
theorem c9_get_mutates_under_read_lock :
    (Get ⟨[("a", ⟨0, 0, 0, 1⟩)], 0, 0⟩ "a" 5).2.2 =
      [Ev.rlockAcq, Ev.mapWrite "a", Ev.rlockRel] ∧
    mapMutations (Get ⟨[("a", ⟨0, 0, 0, 1⟩)], 0, 0⟩ "a" 5).2.2 =
      [Ev.mapWrite "a"] ∧
    writesUnderWriteLock (Get ⟨[("a", ⟨0, 0, 0, 1⟩)], 0, 0⟩ "a" 5).2.2 = false ∧
    writesUnderWriteLock (Set ⟨[("a", ⟨0, 0, 0, 1⟩)], 0, 0⟩ "a" 1 0 5).2 = true := by
  decide

/-- Claim C10: `GetItems` and `ExpiredKeys` are pure queries, returning with
the cache unchanged, no map mutation and no close in their traces; and a
`Get` that reports not-found also leaves the cache unchanged and closes
nothing. -/
theorem c10_pure_queries (c : SafeDbMapCache) (key : String) (now tq : Int)
    (hmiss : (Get c key now).1 = none) :
    (GetItems c).2.1 = c ∧
    mapMutations (GetItems c).2.2 = [] ∧
    closedDbs (GetItems c).2.2 = [] ∧
    (ExpiredKeys c tq).2.1 = c ∧
    mapMutations (ExpiredKeys c tq).2.2 = [] ∧
    closedDbs (ExpiredKeys c tq).2.2 = [] ∧
    (Get c key now).2.1 = c ∧
    closedDbs (Get c key now).2.2 = [] := by
  have hfr : Get c key now = (none, c, [Ev.rlockAcq, Ev.rlockRel]) := by
    cases hl : lookupKey c.pool key with
    | none => simp [Get, hl]
    | some item =>
      by_cases hexp : item.Expiration > 0 ∧ now > item.Expiration
      · simp [Get, hl, hexp]
      · simp [Get, hl, hexp] at hmiss
  exact ⟨rfl, rfl, rfl, rfl, rfl, rfl, by rw [hfr], by rw [hfr]; rfl⟩

/-- Witness for C10: a miss on absent key q. -/
theorem c10_pure_queries_witness :
    (GetItems (⟨[("a", ⟨3, 1, 0, 5⟩)], 0, 0⟩ : SafeDbMapCache)).2.1 =
      ⟨[("a", ⟨3, 1, 0, 5⟩)], 0, 0⟩ ∧
    mapMutations (GetItems (⟨[("a", ⟨3, 1, 0, 5⟩)], 0, 0⟩ : SafeDbMapCache)).2.2 = [] ∧
    closedDbs (GetItems (⟨[("a", ⟨3, 1, 0, 5⟩)], 0, 0⟩ : SafeDbMapCache)).2.2 = [] ∧
    (ExpiredKeys (⟨[("a", ⟨3, 1, 0, 5⟩)], 0, 0⟩ : SafeDbMapCache) 0).2.1 =
      ⟨[("a", ⟨3, 1, 0, 5⟩)], 0, 0⟩ ∧
    mapMutations (ExpiredKeys (⟨[("a", ⟨3, 1, 0, 5⟩)], 0, 0⟩ : SafeDbMapCache) 0).2.2 = [] ∧
    closedDbs (ExpiredKeys (⟨[("a", ⟨3, 1, 0, 5⟩)], 0, 0⟩ : SafeDbMapCache) 0).2.2 = [] ∧
    (Get (⟨[("a", ⟨3, 1, 0, 5⟩)], 0, 0⟩ : SafeDbMapCache) "q" 0).2.1 =
      ⟨[("a", ⟨3, 1, 0, 5⟩)], 0, 0⟩ ∧
    closedDbs (Get (⟨[("a", ⟨3, 1, 0, 5⟩)], 0, 0⟩ : SafeDbMapCache) "q" 0).2.2 = [] :=
  c10_pure_queries ⟨[("a", ⟨3, 1, 0, 5⟩)], 0, 0⟩ "q" 0 0 (by decide)

/-- Counterexample to C1: after `Set("k", handle 1, ttl 10)` at time 0 and
`Set("k", handle 2, ttl 10)` at time 5, `Get("k")` at time 6 does return
handle 2, but the number of `Close` calls on handle 1 over the whole run is
0, not the 1 the claim demands: the overwritten handle is discarded without
ever being closed. -/
theorem c1_counterexample :
    (Get ((Set ((Set (New 0 0) "k" 1 10 0).1) "k" 2 10 5).1) "k" 6).1 = some 2 ∧
    closeCount 1 ((Set (New 0 0) "k" 1 10 0).2 ++
      (Set ((Set (New 0 0) "k" 1 10 0).1) "k" 2 10 5).2 ++
      (Get ((Set ((Set (New 0 0) "k" 1 10 0).1) "k" 2 10 5).1) "k" 6).2.2) = 0 ∧
    closeCount 1 ((Set (New 0 0) "k" 1 10 0).2 ++
      (Set ((Set (New 0 0) "k" 1 10 0).1) "k" 2 10 5).2 ++
      (Get ((Set ((Set (New 0 0) "k" 1 10 0).1) "k" 2 10 5).1) "k" 6).2.2) ≠ 1 := by
  decide

/-- Claim C1 as amended: after `Set(k, v1)` then `Set(k, v2)`, a live `Get(k)`
returns `v2`, but no `Close` is ever invoked during the two `Set` calls and
the `Get`: the first handle is discarded by the overwrite with close count 0,
leaked unclosed. -/
theorem c1_overwrite_leaks (c : SafeDbMapCache) (key : String) (v1 v2 : Nat)
    (d1 d2 t1 t2 now : Int)
    (hlive : ¬ (effExp c d2 t2 > 0 ∧ now > effExp c d2 t2)) :
    (Get ((Set ((Set c key v1 d1 t1).1) key v2 d2 t2).1) key now).1 = some v2 ∧
    closedDbs ((Set c key v1 d1 t1).2 ++
      (Set ((Set c key v1 d1 t1).1) key v2 d2 t2).2 ++
      (Get ((Set ((Set c key v1 d1 t1).1) key v2 d2 t2).1) key now).2.2) = [] := by
  have h1 : lookupKey ((Set ((Set c key v1 d1 t1).1) key v2 d2 t2).1).pool key =
      some ⟨effExp c d2 t2, effDur c d2, t2, v2⟩ := by
    rw [Set_eq (Set c key v1 d1 t1).1 key v2 d2 t2]
    simp [lookupKey_insertKey]
    exact ⟨rfl, rfl⟩
  have hget : Get ((Set ((Set c key v1 d1 t1).1) key v2 d2 t2).1) key now =
      (some v2,
       ⟨insertKey ((Set ((Set c key v1 d1 t1).1) key v2 d2 t2).1).pool key
          ⟨(if effDur c d2 > 0 then now + effDur c d2 else 0), effDur c d2, now, v2⟩,
        c.defaultExpiration, c.cleanupInterval⟩,
       [Ev.rlockAcq, Ev.mapWrite key, Ev.rlockRel]) := by
    simp [Get, h1, hlive]
    exact ⟨rfl, rfl⟩
  rw [hget]
  exact ⟨rfl, rfl⟩

/-- Witness for the amended C1 at the counterexample's own input. -/
theorem c1_overwrite_leaks_witness :
    (Get ((Set ((Set (New 0 0) "q" 1 10 0).1) "q" 2 10 5).1) "q" 6).1 = some 2 ∧
    closedDbs ((Set (New 0 0) "q" 1 10 0).2 ++
      (Set ((Set (New 0 0) "q" 1 10 0).1) "q" 2 10 5).2 ++
      (Get ((Set ((Set (New 0 0) "q" 1 10 0).1) "q" 2 10 5).1) "q" 6).2.2) = [] :=
  c1_overwrite_leaks (New 0 0) "q" 1 2 10 10 0 5 6 (by decide)

/-- Counterexample to C3: for a never-expire entry (stored ttl 0) a hit at
time 5 writes back expiration 0 (the sentinel is kept), not `now` plus the
stored ttl, which would be 5: the claimed refresh formula fails when the
stored ttl is not positive. -/
theorem c3_counterexample :
    (Get ⟨[("a", ⟨0, 0, 0, 1⟩)], 0, 0⟩ "a" 5).1 = some 1 ∧
    lookupKey ((Get ⟨[("a", ⟨0, 0, 0, 1⟩)], 0, 0⟩ "a" 5).2.1).pool "a" =
      some ⟨0, 0, 5, 1⟩ ∧
    lookupKey ((Get ⟨[("a", ⟨0, 0, 0, 1⟩)], 0, 0⟩ "a" 5).2.1).pool "a" ≠
      some ⟨5 + 0, 0, 5, 1⟩ := by
  decide

/-- Claim C3 as amended: on a hit (present, not expired) `Get` returns the
stored handle and writes back an entry with expiration `now` plus the stored
ttl when the stored ttl is positive and the never-expire sentinel 0
otherwise, creation time `now`, handle and ttl unchanged; other keys are
untouched; and when the stored ttl is positive, any sequence of further
`Get` calls each within ttl of the previous refresh is always found. -/
theorem c3_sliding_refresh (c : SafeDbMapCache) (key : String) (item : PoolItem)
    (now : Int) (k' : String) (ts : List Int)
    (hfound : lookupKey c.pool key = some item)
    (hlive : ¬ (item.Expiration > 0 ∧ now > item.Expiration))
    (hk' : k' ≠ key) :
    (Get c key now).1 = some item.Db ∧
    lookupKey (Get c key now).2.1.pool key =
      some ⟨(if item.Duration > 0 then now + item.Duration else 0),
        item.Duration, now, item.Db⟩ ∧
    lookupKey (Get c key now).2.1.pool k' = lookupKey c.pool k' ∧
    (0 < item.Duration → withinChain (now + item.Duration) item.Duration ts = true →
      (getSeq (Get c key now).2.1 key ts).1 = ts.map (fun _ => some item.Db)) := by
  have hget : Get c key now =
      (some item.Db,
       ⟨insertKey c.pool key
          ⟨(if item.Duration > 0 then now + item.Duration else 0),
            item.Duration, now, item.Db⟩,
        c.defaultExpiration, c.cleanupInterval⟩,
       [Ev.rlockAcq, Ev.mapWrite key, Ev.rlockRel]) := by
    simp [Get, hfound, hlive]
  refine ⟨by rw [hget], ?_, ?_, ?_⟩
  · rw [hget]
    simp [lookupKey_insertKey]
  · rw [hget]
    simp [lookupKey_insertKey, hk']
  · intro hd hchain
    rw [hget]
    apply getSeq_all_found key item.Db item.Duration hd ts _ (now + item.Duration) now _
      hchain
    simp [lookupKey_insertKey, hd]

/-- Witness for the amended C3: entry with ttl 4 and expiration 10, hit at
time 6, then hits at times 8 and 11, each within the refreshed window. -/
theorem c3_sliding_refresh_witness :
    (Get ⟨[("a", ⟨10, 4, 0, 2⟩)], 0, 0⟩ "a" 6).1 = some 2 ∧
    lookupKey (Get ⟨[("a", ⟨10, 4, 0, 2⟩)], 0, 0⟩ "a" 6).2.1.pool "a" =
      some ⟨10, 4, 6, 2⟩ ∧
    lookupKey (Get ⟨[("a", ⟨10, 4, 0, 2⟩)], 0, 0⟩ "a" 6).2.1.pool "b" =
      lookupKey [("a", ⟨10, 4, 0, 2⟩)] "b" ∧
    ((0 : Int) < 4 → withinChain 10 4 [8, 11] = true →
      (getSeq (Get ⟨[("a", ⟨10, 4, 0, 2⟩)], 0, 0⟩ "a" 6).2.1 "a" [8, 11]).1 =
        [8, 11].map (fun _ => some 2)) :=
  c3_sliding_refresh ⟨[("a", ⟨10, 4, 0, 2⟩)], 0, 0⟩ "a" ⟨10, 4, 0, 2⟩ 6 "b" [8, 11]
    (by decide) (by decide) (by decide)

/-- Claim C5: evicting a snapshot of keys removes every snapshot key from
the pool (so it no longer appears in `GetItems`), leaves every other key
untouched, closes exactly the handles of the snapshot keys that are still
present (one close each, in order; a snapshot key that was concurrently
deleted contributes no close and no error: `clearItems` has no error path),
and a `GC` tick empties every key that its own scan reported expired. -/
theorem c5_sweeper_eviction (c : SafeDbMapCache) (keys : List String)
    (cf : Nat → Bool) (k1 k2 k3 : String) (now : Int)
    (hnd : keys.Nodup) (hk1 : k1 ∈ keys) (hk2 : k2 ∉ keys)
    (hk3 : k3 ∈ (ExpiredKeys c now).1) :
    lookupKey (clearItems c keys cf).1.pool k1 = none ∧
    k1 ∉ (GetItems (clearItems c keys cf).1).1 ∧
    lookupKey (clearItems c keys cf).1.pool k2 = lookupKey c.pool k2 ∧
    closedDbs (clearItems c keys cf).2 =
      keys.filterMap (fun k => (lookupKey c.pool k).map PoolItem.Db) ∧
    lookupKey (GCTick c cf now).1.pool k3 = none := by
  have h1 : lookupKey (clearItems c keys cf).1.pool k1 = none :=
    clearLoop_lookup_mem cf k1 keys c.pool hk1
  refine ⟨h1, ?_, ?_, ?_, ?_⟩
  · intro hmem
    have := lookupKey_isSome_of_mem k1 (clearItems c keys cf).1.pool hmem
    rw [h1] at this
    simp at this
  · exact clearLoop_lookup_not_mem cf k2 keys c.pool hk2
  · have h2 : closedDbs (clearItems c keys cf).2 =
        closedDbs (clearLoop cf c.pool keys).2 := by
      simp [clearItems, closedDbs]
    rw [h2]
    exact closedDbs_clearLoop cf keys c.pool hnd
  · have hlen : (ExpiredKeys c now).1.length ≠ 0 := by
      have hne := List.ne_nil_of_mem hk3
      simpa [List.length_eq_zero] using hne
    have hg : (GCTick c cf now).1 = (clearItems c (ExpiredKeys c now).1 cf).1 := by
      simp [GCTick, hlen]
    rw [hg]
    exact clearLoop_lookup_mem cf k3 (ExpiredKeys c now).1 c.pool hk3

/-- Witness for C5: pool with expired a (expiration 1) and never-expire b,
snapshot keys a and the already-removed x, scanned and swept at time 5. -/
theorem c5_sweeper_eviction_witness :
    lookupKey (clearItems (⟨[("a", ⟨1, 1, 0, 1⟩), ("b", ⟨0, 0, 0, 2⟩)], 0, 0⟩ :
      SafeDbMapCache) ["a", "x"] (fun _ => false)).1.pool "a" = none ∧
    "a" ∉ (GetItems (clearItems (⟨[("a", ⟨1, 1, 0, 1⟩), ("b", ⟨0, 0, 0, 2⟩)], 0, 0⟩ :
      SafeDbMapCache) ["a", "x"] (fun _ => false)).1).1 ∧
    lookupKey (clearItems (⟨[("a", ⟨1, 1, 0, 1⟩), ("b", ⟨0, 0, 0, 2⟩)], 0, 0⟩ :
      SafeDbMapCache) ["a", "x"] (fun _ => false)).1.pool "b" =
      lookupKey [("a", ⟨1, 1, 0, 1⟩), ("b", ⟨0, 0, 0, 2⟩)] "b" ∧
    closedDbs (clearItems (⟨[("a", ⟨1, 1, 0, 1⟩), ("b", ⟨0, 0, 0, 2⟩)], 0, 0⟩ :
      SafeDbMapCache) ["a", "x"] (fun _ => false)).2 =
      ["a", "x"].filterMap
        (fun k => (lookupKey [("a", ⟨1, 1, 0, 1⟩), ("b", ⟨0, 0, 0, 2⟩)] k).map
          PoolItem.Db) ∧
    lookupKey (GCTick (⟨[("a", ⟨1, 1, 0, 1⟩), ("b", ⟨0, 0, 0, 2⟩)], 0, 0⟩ :
      SafeDbMapCache) (fun _ => false) 5).1.pool "a" = none :=
  c5_sweeper_eviction ⟨[("a", ⟨1, 1, 0, 1⟩), ("b", ⟨0, 0, 0, 2⟩)], 0, 0⟩ ["a", "x"]
    (fun _ => false) "a" "b" "a" 5 (by decide) (by decide) (by decide) (by decide)

/-- Claim C6: `ClearAll` empties the pool (so `GetItems` afterwards returns
the empty list), closes the handle of every stored entry exactly once each
(in enumeration order, failures only logged), and the cache stays usable: a
subsequent `Set` stores its entry normally. -/
theorem c6_clear_all (c : SafeDbMapCache) (cf : Nat → Bool) (key : String)
    (v : Nat) (d t : Int) (hc : NodupKeys c) :
    (ClearAll c cf).1.pool = [] ∧
    (GetItems (ClearAll c cf).1).1 = [] ∧
    closedDbs (ClearAll c cf).2 = c.pool.map (fun p => p.2.Db) ∧
    lookupKey ((Set (ClearAll c cf).1 key v d t).1).pool key =
      some ⟨effExp c d t, effDur c d, t, v⟩ := by
  have h1 : (ClearAll c cf).1.pool = [] := by
    exact clearLoop_pool_nil cf (c.pool.map Prod.fst) c.pool
      (fun p hp => List.mem_map_of_mem Prod.fst hp)
  refine ⟨h1, ?_, ?_, ?_⟩
  · show (ClearAll c cf).1.pool.map Prod.fst = []
    rw [h1]
    rfl
  · have h2 : closedDbs (ClearAll c cf).2 =
        closedDbs (clearLoop cf c.pool (c.pool.map Prod.fst)).2 := by
      simp [ClearAll, closedDbs]
    rw [h2, closedDbs_clearLoop cf (c.pool.map Prod.fst) c.pool hc,
      map_fst_filterMap_lookup c.pool hc]
  · rw [Set_eq]
    simp [lookupKey_insertKey]
    exact ⟨rfl, rfl⟩

/-- Witness for C6: two entries with handles 1 and 2, both closes failing,
then a fresh `Set` with the default ttl 3 at time 4. -/
theorem c6_clear_all_witness :
    (ClearAll (⟨[("a", ⟨0, 0, 0, 1⟩), ("b", ⟨9, 2, 0, 2⟩)], 3, 0⟩ : SafeDbMapCache)
      (fun _ => true)).1.pool = [] ∧
    (GetItems (ClearAll (⟨[("a", ⟨0, 0, 0, 1⟩), ("b", ⟨9, 2, 0, 2⟩)], 3, 0⟩ :
      SafeDbMapCache) (fun _ => true)).1).1 = [] ∧
    closedDbs (ClearAll (⟨[("a", ⟨0, 0, 0, 1⟩), ("b", ⟨9, 2, 0, 2⟩)], 3, 0⟩ :
      SafeDbMapCache) (fun _ => true)).2 =
      [("a", (⟨0, 0, 0, 1⟩ : PoolItem)), ("b", ⟨9, 2, 0, 2⟩)].map (fun p => p.2.Db) ∧
    lookupKey ((Set (ClearAll (⟨[("a", ⟨0, 0, 0, 1⟩), ("b", ⟨9, 2, 0, 2⟩)], 3, 0⟩ :
      SafeDbMapCache) (fun _ => true)).1 "q" 7 0 4).1).pool "q" =
      some ⟨effExp ⟨[("a", ⟨0, 0, 0, 1⟩), ("b", ⟨9, 2, 0, 2⟩)], 3, 0⟩ 0 4,
        effDur ⟨[("a", ⟨0, 0, 0, 1⟩), ("b", ⟨9, 2, 0, 2⟩)], 3, 0⟩ 0, 4, 7⟩ :=
  c6_clear_all ⟨[("a", ⟨0, 0, 0, 1⟩), ("b", ⟨9, 2, 0, 2⟩)], 3, 0⟩ (fun _ => true)
    "q" 7 0 4 (by unfold NodupKeys; decide)

/-- Claim C8: with `defaultExpiration = 0`, `Set` with ttl argument 0 stores
the never-expire sentinel and ttl 0; thereafter any sequence of `Get` calls,
at arbitrary times, always finds the handle, the key never appears in
`ExpiredKeys`, and a `GC` tick at any time leaves the entry in place. -/
theorem c8_never_expire (c : SafeDbMapCache) (key : String) (v : Nat) (t : Int)
    (ts : List Int) (tq : Int) (cf : Nat → Bool)
    (hd : c.defaultExpiration = 0) :
    (getSeq (Set c key v 0 t).1 key ts).1 = ts.map (fun _ => some v) ∧
    key ∉ (ExpiredKeys (Set c key v 0 t).1 tq).1 ∧
    lookupKey (GCTick (Set c key v 0 t).1 cf tq).1.pool key = some ⟨0, 0, t, v⟩ := by
  have hl : lookupKey ((Set c key v 0 t).1).pool key = some ⟨0, 0, t, v⟩ := by
    rw [Set_eq]
    simp [lookupKey_insertKey, effExp, effDur, hd]
  have hnotmem : key ∉ (ExpiredKeys (Set c key v 0 t).1 tq).1 := by
    intro hmem
    simp only [ExpiredKeys, List.mem_map, List.mem_filter] at hmem
    obtain ⟨q, ⟨hqmem, hqpred⟩, hqkey⟩ := hmem
    rw [Set_eq] at hqmem
    simp only [insertKey, List.mem_cons] at hqmem
    rcases hqmem with hqhead | hqtail
    · rw [hqhead] at hqpred
      simp [effExp, effDur, hd] at hqpred
    · exact (mem_eraseKey key q c.pool hqtail).2 hqkey
  refine ⟨getSeq_never_expire key v ts (Set c key v 0 t).1 t hl, hnotmem, ?_⟩
  by_cases hlen : (ExpiredKeys (Set c key v 0 t).1 tq).1.length ≠ 0
  · have hg : (GCTick (Set c key v 0 t).1 cf tq).1 =
        (clearItems (Set c key v 0 t).1 (ExpiredKeys (Set c key v 0 t).1 tq).1 cf).1 := by
      simp [GCTick, hlen]
    rw [hg]
    have := clearLoop_lookup_not_mem cf key (ExpiredKeys (Set c key v 0 t).1 tq).1
      ((Set c key v 0 t).1).pool hnotmem
    exact this.trans hl
  · have hg : (GCTick (Set c key v 0 t).1 cf tq).1 = (Set c key v 0 t).1 := by
      simp [GCTick, hlen]
    rw [hg]
    exact hl

/-- Witness for C8: empty cache with default ttl 0, `Set("a", 1, ttl 0)` at
time 0, gets at times 100 and 200, scan and sweep at time 1000. -/
theorem c8_never_expire_witness :
    (getSeq (Set (New 0 7) "a" 1 0 0).1 "a" [100, 200]).1 =
      [100, 200].map (fun _ => some 1) ∧
    "a" ∉ (ExpiredKeys (Set (New 0 7) "a" 1 0 0).1 1000).1 ∧
    lookupKey (GCTick (Set (New 0 7) "a" 1 0 0).1 (fun _ => false) 1000).1.pool "a" =
      some ⟨0, 0, 0, 1⟩ :=
  c8_never_expire (New 0 7) "a" 1 0 [100, 200] 1000 (fun _ => false) rfl

end DbPool
